import Mathlib

/-!
Verification of the route-and-trade layer of a DEX aggregator SDK.

The development shallowly embeds, from the repository's TypeScript source:
* `utils/encodeMixedRouteToPath.ts` — serialization of a heterogeneous
  (pair-style / pool-style) route into a single byte path;
* `entities/trade.ts` — the `Trade` aggregate: constructor invariants and
  the derived accessors `inputAmount`, `outputAmount`, `priceImpact`,
  `minimumAmountOut`, `maximumAmountIn`;
* `entities/route.ts` — the route wrappers exposing `pools`, `input`,
  `output`, `midPrice` behind one interface.

External collaborators (`@pollum-io/sdk-core`: `Token`, `Currency`,
`Fraction`, `CurrencyAmount`, `Percent`, `Price`) are embedded following
their documented interface (spec §6): exact integer-numerator/denominator
rational arithmetic, with `quotient` the truncated (toward-zero) integer
division of numerator by denominator, as in arbitrary-precision BigInt
division.  Machine addresses are modelled as natural numbers (20-byte
on-chain identifiers), byte strings as lists of byte values.
-/

namespace RouterSdk

/-- A fungible token: chain id, 20-byte on-chain address, decimals
(sdk-core `Token`; `equals` compares chain id and address). -/
structure Token where
  chainId : Nat
  address : Nat
  decimals : Nat
deriving DecidableEq, Repr

/-- sdk-core `Token.equals`: same chain id and same address. -/
def Token.equals (a b : Token) : Bool :=
  a.chainId == b.chainId && a.address == b.address

/-- A currency is either a native chain currency (carrying its canonical
wrapped-token representation) or a token (spec §3). -/
inductive Currency where
  | native (chainId : Nat) (wrappedToken : Token)
  | token (t : Token)
deriving DecidableEq, Repr

/-- sdk-core `Currency.wrapped`: the on-chain token form of a currency. -/
def Currency.wrapped : Currency → Token
  | .native _ w => w
  | .token t => t

/-- A liquidity venue: a pool-style venue (`Pool`: two tokens plus an
explicit fee tier) or a pair-style venue (`Pair`: two tokens, implicit
fee).  `token0`/`token1` are in the canonical (address-sorted) order
produced by the venue constructors. -/
inductive PoolOrPair where
  | pool (token0 token1 : Token) (fee : Nat)
  | pair (token0 token1 : Token)
deriving DecidableEq, Repr

def PoolOrPair.token0 : PoolOrPair → Token
  | .pool t0 _ _ => t0
  | .pair t0 _ => t0

def PoolOrPair.token1 : PoolOrPair → Token
  | .pool _ t1 _ => t1
  | .pair _ t1 => t1

/-- Modelled from the spec: `V1_FEE_PATH_PLACEHOLDER` lives in
`src/constants.ts`, which is not under `src/`; the reserved sentinel fee
value for pair-style legs is pinned to `0x800000` by the expected
encodings in `encodeMixedRouteToPath.test.ts` (`800000` fee fields on
every pair-style hop), outside the legal fee-tier range. -/
def V1_FEE_PATH_PLACEHOLDER : Nat := 0x800000

/-- The fee word emitted for a venue in the encoded path:
`pool instanceof Pool ? pool.fee : V1_FEE_PATH_PLACEHOLDER`. -/
def PoolOrPair.feeWord : PoolOrPair → Nat
  | .pool _ _ fee => fee
  | .pair _ _ => V1_FEE_PATH_PLACEHOLDER

/-! ### Byte-path packing (`@ethersproject/solidity` `pack`) -/

/-- Big-endian byte representation of `n`, fixed width `w` bytes
(higher bytes first, truncated to `w` bytes). -/
def toBytesBE : Nat → Nat → List Nat
  | 0, _ => []
  | w + 1, n => toBytesBE w (n / 256) ++ [n % 256]

/-- One field of a packed solidity path: a 20-byte `address` or a 3-byte
`uint24` fee word.  The source keeps two parallel lists (`types`,
`path`); the tagged field list is their zip. -/
inductive PathField where
  | address (a : Nat)
  | uint24 (f : Nat)
deriving DecidableEq, Repr

/-- `solidityPack` of one typed field: addresses are 20 bytes, `uint24`
fee words 3 bytes, big-endian, no padding between fields. -/
def packField : PathField → List Nat
  | .address a => toBytesBE 20 a
  | .uint24 f => toBytesBE 3 f

/-- `pack(types, path)`: concatenation of the fixed-width fields. -/
def pack (fields : List PathField) : List Nat :=
  fields.flatMap packField

/-! ### Routes -/

/-- sdk-core `Price`: a rational price from `baseCurrency` to
`quoteCurrency`, stored as an integer numerator/denominator pair. -/
structure Fraction where
  numerator : Int
  denominator : Int
deriving DecidableEq, Repr

structure Price where
  baseCurrency : Currency
  quoteCurrency : Currency
  frac : Fraction
deriving DecidableEq, Repr

/-- `MixedRouteSDK`: ordered venue list plus input/output currency.
`midPrice` is on the real class a getter computed from the venue states;
its computation lives in `entities/mixedRoute/route.ts`, which is not
under `src/`, so it is modelled as a stored field (spec §4.1: a
lazily-computed composite mid-price exposed by the route). -/
structure MixedRouteSDK where
  pools : List PoolOrPair
  input : Currency
  output : Currency
  midPrice : Price
deriving DecidableEq, Repr

/-- The body of the `route.pools.reduce` in `encodeMixedRouteToPath`,
with the accumulator's `path`/`types` pair fused into one typed field
list and the `index` parameter made explicit.  At `index = 0` the
accumulator path is replaced by `[inputToken.address, fee, outputToken
.address]`; at later indices one `(fee, address)` pair is appended. -/
def encodeFold : List PoolOrPair → Token → List PathField → Nat → List PathField
  | [], _, path, _ => path
  | pool :: rest, inputToken, path, index =>
    let outputToken : Token := if pool.token0.equals inputToken then pool.token1 else pool.token0
    if index == 0 then
      encodeFold rest outputToken
        [.address inputToken.address, .uint24 pool.feeWord, .address outputToken.address] (index + 1)
    else
      encodeFold rest outputToken
        (path ++ [.uint24 pool.feeWord, .address outputToken.address]) (index + 1)

/-- `encodeMixedRouteToPath(route)`: the packed byte path of a mixed
route, starting from the wrapped form of the route's input currency. -/
def encodeMixedRouteToPath (route : MixedRouteSDK) : List Nat :=
  let firstInputToken : Token := route.input.wrapped
  pack (encodeFold route.pools firstInputToken [] 0)

/-- The `(fee, address)` field pairs the reduce appends after the leading
input-token address field: one pair per venue, the address being
`token1` when `token0` equals the running input token and `token0`
otherwise. -/
def tailFields : List PoolOrPair → Token → List PathField
  | [], _ => []
  | pool :: rest, inputToken =>
    let outputToken : Token := if pool.token0.equals inputToken then pool.token1 else pool.token0
    .uint24 pool.feeWord :: .address outputToken.address :: tailFields rest outputToken

/-- Modelled from the spec: the `MixedRouteSDK` constructor
(`entities/mixedRoute/route.ts`, not under `src/`) validates that the
venue chain is contiguous (§4.1); `chainWalk pools t` walks the chain
from token `t`, at each venue moving to the venue token that is not the
current one, and returns `none` on any adjacency mismatch. -/
def chainWalk : List PoolOrPair → Token → Option Token
  | [], t => some t
  | pool :: rest, t =>
    if pool.token0.equals t then chainWalk rest pool.token1
    else if pool.token1.equals t then chainWalk rest pool.token0
    else none

/-- Modelled from the spec: a route admitted by the `MixedRouteSDK`
constructor has a non-empty venue list, and walking the chain from the
wrapped input reaches the wrapped output (§4.1, §3). -/
def MixedRouteSDK.valid (r : MixedRouteSDK) : Prop :=
  r.pools ≠ [] ∧ chainWalk r.pools r.input.wrapped = some r.output.wrapped

/-! ### sdk-core rational arithmetic (external collaborator, spec §6) -/

/-- sdk-core `Fraction.add`: exact rational addition, with the
equal-denominator fast path of the source. -/
def Fraction.add (a b : Fraction) : Fraction :=
  if a.denominator == b.denominator then ⟨a.numerator + b.numerator, a.denominator⟩
  else ⟨a.numerator * b.denominator + b.numerator * a.denominator,
        a.denominator * b.denominator⟩

/-- sdk-core `Fraction.subtract`. -/
def Fraction.subtract (a b : Fraction) : Fraction :=
  if a.denominator == b.denominator then ⟨a.numerator - b.numerator, a.denominator⟩
  else ⟨a.numerator * b.denominator - b.numerator * a.denominator,
        a.denominator * b.denominator⟩

/-- sdk-core `Fraction.multiply`. -/
def Fraction.multiply (a b : Fraction) : Fraction :=
  ⟨a.numerator * b.numerator, a.denominator * b.denominator⟩

/-- sdk-core `Fraction.divide`. -/
def Fraction.divide (a b : Fraction) : Fraction :=
  ⟨a.numerator * b.denominator, a.denominator * b.numerator⟩

/-- sdk-core `Fraction.invert`. -/
def Fraction.invert (a : Fraction) : Fraction :=
  ⟨a.denominator, a.numerator⟩

/-- sdk-core `Fraction.lessThan`: cross-multiplied comparison of the
stored integers. -/
def Fraction.lessThan (a b : Fraction) : Bool :=
  decide (a.numerator * b.denominator < b.numerator * a.denominator)

/-- sdk-core `Fraction.quotient`: arbitrary-precision BigInt division of
numerator by denominator, truncated toward zero. -/
def Fraction.quotient (a : Fraction) : Int :=
  a.numerator.tdiv a.denominator

/-- The exact rational value a `Fraction` denotes. -/
def Fraction.value (a : Fraction) : ℚ :=
  (a.numerator : ℚ) / (a.denominator : ℚ)

/-- sdk-core `Percent`: a `Fraction` carrying a ×100 display scale;
the stored rational is identical. -/
abbrev Percent := Fraction

/-- sdk-core `CurrencyAmount`: a `Fraction` of raw units together with
its currency. -/
structure CurrencyAmount extends Fraction where
  currency : Currency
deriving DecidableEq, Repr

/-- sdk-core `CurrencyAmount.fromRawAmount`: a whole raw amount,
denominator 1. -/
def CurrencyAmount.fromRawAmount (currency : Currency) (rawAmount : Int) : CurrencyAmount :=
  ⟨⟨rawAmount, 1⟩, currency⟩

/-- Modelled from the spec: sdk-core `CurrencyAmount.add` (spec §6
"Rational amount type: integer numerator/denominator, `add`, …, exact
(non-lossy) arithmetic"); exact rational addition, the result
denominated in the left operand's currency (§4.4: sums are "expressed in
the trade's overall input/output currency"). -/
def CurrencyAmount.add (a b : CurrencyAmount) : CurrencyAmount :=
  ⟨a.toFraction.add b.toFraction, a.currency⟩

/-- Modelled from the spec: sdk-core `CurrencyAmount.subtract`,
symmetric to `CurrencyAmount.add`. -/
def CurrencyAmount.subtract (a b : CurrencyAmount) : CurrencyAmount :=
  ⟨a.toFraction.subtract b.toFraction, a.currency⟩

def CurrencyAmount.value (a : CurrencyAmount) : ℚ := a.toFraction.value

def CurrencyAmount.quotient (a : CurrencyAmount) : Int := a.toFraction.quotient

/-- Modelled from the spec: sdk-core `Price.quote` — applying a price to
an amount of its base currency yields the exact product amount in the
quote currency (§4.4: "evaluate the route's own current mid-price
applied to that swap's input amount"). -/
def Price.quote (p : Price) (amount : CurrencyAmount) : CurrencyAmount :=
  ⟨p.frac.multiply amount.toFraction, p.quoteCurrency⟩

/-! ### Route wrappers (`entities/route.ts`) -/

/-- The protocol tag of a wrapped route. -/
inductive Protocol where
  | V1
  | V2
  | MIXED
deriving DecidableEq, Repr

/-- `Route` of the pair-style SDK: venue list (`pairs`) plus endpoint
currencies.  `midPrice` is a getter of the external SDK, modelled as a
stored field. -/
structure V1RouteSDK where
  pairs : List PoolOrPair
  input : Currency
  output : Currency
  midPrice : Price
deriving DecidableEq, Repr

/-- `Route` of the pool-style SDK. -/
structure V2RouteSDK where
  pools : List PoolOrPair
  input : Currency
  output : Currency
  midPrice : Price
deriving DecidableEq, Repr

/-- The common capability interface `IRoute`: protocol tag, venue list,
endpoint currencies, mid-price. -/
structure IRoute where
  protocol : Protocol
  pools : List PoolOrPair
  input : Currency
  output : Currency
  midPrice : Price
deriving DecidableEq, Repr

/-- `RouteV1` wrapper: re-exposes a pair-style route, `pools :=
this.pairs`, tagged `Protocol.V1`; no further validation. -/
def RouteV1.wrap (r : V1RouteSDK) : IRoute :=
  ⟨.V1, r.pairs, r.input, r.output, r.midPrice⟩

/-- `RouteV2` wrapper, tagged `Protocol.V2`. -/
def RouteV2.wrap (r : V2RouteSDK) : IRoute :=
  ⟨.V2, r.pools, r.input, r.output, r.midPrice⟩

/-- `MixedRoute` wrapper, tagged `Protocol.MIXED`. -/
def MixedRoute.wrap (r : MixedRouteSDK) : IRoute :=
  ⟨.MIXED, r.pools, r.input, r.output, r.midPrice⟩

/-! ### Trade (`entities/trade.ts`) -/

inductive TradeType where
  | exactInput
  | exactOutput
deriving DecidableEq, Repr

/-- One swap of a trade: a wrapped route with its externally computed
input and output amounts. -/
structure Swap where
  route : IRoute
  inputAmount : CurrencyAmount
  outputAmount : CurrencyAmount
deriving DecidableEq, Repr

/-- The distinguishable failures of the trade layer: the invariant
messages of `trade.ts` (`INPUT_CURRENCY_MATCH`, `OUTPUT_CURRENCY_MATCH`,
`POOLS_DUPLICATED`, `SLIPPAGE_TOLERANCE`), plus the failure of reading
`this.swaps[0]` on an empty swap list. -/
inductive TradeError where
  | emptySwaps
  | inputCurrencyMatch
  | outputCurrencyMatch
  | poolsDuplicated
  | slippageTolerance
deriving DecidableEq, Repr

structure Trade where
  swaps : List Swap
  tradeType : TradeType
deriving DecidableEq, Repr

/-- The deterministic venue identifier used for duplicate detection:
`Pair.getAddress(token0, token1)` for a pair-style venue,
`Pool.getAddress(token0, token1, fee)` for a pool-style venue.  The
`getAddress` helpers sort their token arguments, so the identifier is
the unordered token-address pair (plus fee tier for pools). -/
inductive VenueId where
  | pairAddress (a0 a1 : Nat)
  | poolAddress (a0 a1 : Nat) (fee : Nat)
deriving DecidableEq, Repr

def PoolOrPair.getAddress : PoolOrPair → VenueId
  | .pair t0 t1 =>
    if t0.address ≤ t1.address then .pairAddress t0.address t1.address
    else .pairAddress t1.address t0.address
  | .pool t0 t1 fee =>
    if t0.address ≤ t1.address then .poolAddress t0.address t1.address fee
    else .poolAddress t1.address t0.address fee

/-- One entry of the constructor's `v1Routes` group. -/
structure V1RouteInfo where
  routev1 : V1RouteSDK
  inputAmount : CurrencyAmount
  outputAmount : CurrencyAmount
deriving DecidableEq, Repr

/-- One entry of the constructor's `v2Routes` group. -/
structure V2RouteInfo where
  routev2 : V2RouteSDK
  inputAmount : CurrencyAmount
  outputAmount : CurrencyAmount
deriving DecidableEq, Repr

/-- One entry of the constructor's optional `mixedRoutes` group. -/
structure MixedRouteInfo where
  mixedRoute : MixedRouteSDK
  inputAmount : CurrencyAmount
  outputAmount : CurrencyAmount
deriving DecidableEq, Repr

/-- The swap list the constructor builds: the three groups wrapped in
order (v1 routes, then v2 routes, then mixed routes when present). -/
def Trade.buildSwaps (v1Routes : List V1RouteInfo) (v2Routes : List V2RouteInfo)
    (mixedRoutes : Option (List MixedRouteInfo)) : List Swap :=
  v1Routes.map (fun g => ⟨RouteV1.wrap g.routev1, g.inputAmount, g.outputAmount⟩)
    ++ v2Routes.map (fun g => ⟨RouteV2.wrap g.routev2, g.inputAmount, g.outputAmount⟩)
    ++ (match mixedRoutes with
        | some ms => ms.map (fun g => ⟨MixedRoute.wrap g.mixedRoute, g.inputAmount, g.outputAmount⟩)
        | none => [])

/-- The `Trade` constructor: builds the swap list, then checks the
invariants in source order.  Reading `this.swaps[0].inputAmount` on an
empty swap list fails (before any invariant); then every swap's route
must match the first swap's wrapped input and output currencies; then
the venues across all swaps must be pairwise distinct (`numPools`
venues against the size of the set of their `getAddress` identifiers). -/
def Trade.construct (v1Routes : List V1RouteInfo) (v2Routes : List V2RouteInfo)
    (tradeType : TradeType) (mixedRoutes : Option (List MixedRouteInfo)) :
    Except TradeError Trade :=
  let swaps := Trade.buildSwaps v1Routes v2Routes mixedRoutes
  match swaps with
  | [] => .error .emptySwaps
  | s0 :: rest =>
    let inputCurrency := s0.inputAmount.currency
    let outputCurrency := s0.outputAmount.currency
    if (s0 :: rest).all (fun s => inputCurrency.wrapped.equals s.route.input.wrapped) then
      if (s0 :: rest).all (fun s => outputCurrency.wrapped.equals s.route.output.wrapped) then
        let numPools := ((s0 :: rest).map (fun s => s.route.pools.length)).sum
        let poolAddressSet :=
          (((s0 :: rest).flatMap (fun s => s.route.pools)).map PoolOrPair.getAddress).dedup
        if numPools == poolAddressSet.length then .ok ⟨s0 :: rest, tradeType⟩
        else .error .poolsDuplicated
      else .error .outputCurrencyMatch
    else .error .inputCurrencyMatch

/-- `Trade.inputAmount`: the swap input amounts, reduced by
`CurrencyAmount.add` from a zero amount of the first swap's input
currency; fails on an empty swap list (`this.swaps[0]`). -/
def Trade.inputAmount (t : Trade) : Option CurrencyAmount :=
  match t.swaps with
  | [] => none
  | s0 :: _ =>
    some ((t.swaps.map (fun s => s.inputAmount)).foldl
      (fun total cur => total.add cur)
      (CurrencyAmount.fromRawAmount s0.inputAmount.currency 0))

/-- `Trade.outputAmount`, symmetric to `Trade.inputAmount`. -/
def Trade.outputAmount (t : Trade) : Option CurrencyAmount :=
  match t.swaps with
  | [] => none
  | s0 :: _ =>
    some ((t.swaps.map (fun s => s.outputAmount)).foldl
      (fun total cur => total.add cur)
      (CurrencyAmount.fromRawAmount s0.outputAmount.currency 0))

/-- `Trade.priceImpact`: sum each route's mid-price quoted at the swap's
input amount into a spot output amount, then
`(spot − actual) / spot` packaged as a `Percent`. -/
def Trade.priceImpact (t : Trade) : Option Percent :=
  match t.outputAmount with
  | none => none
  | some outAmount =>
    let spotOutputAmount := t.swaps.foldl
      (fun spot s => spot.add (s.route.midPrice.quote s.inputAmount))
      (CurrencyAmount.fromRawAmount outAmount.currency 0)
    let impact := (spotOutputAmount.subtract outAmount).toFraction.divide
      spotOutputAmount.toFraction
    some ⟨impact.numerator, impact.denominator⟩

/-- `Trade.minimumAmountOut(slippageTolerance, amountOut)`: fails on a
negative tolerance; returns `amountOut` unchanged for exact-output
trades; otherwise the raw amount
`(1 + tolerance)⁻¹ · amountOut.quotient`, truncated to an integer. -/
def Trade.minimumAmountOut (t : Trade) (slippageTolerance : Percent)
    (amountOut : CurrencyAmount) : Except TradeError CurrencyAmount :=
  if slippageTolerance.lessThan ⟨0, 1⟩ then .error .slippageTolerance
  else if t.tradeType == .exactOutput then .ok amountOut
  else
    let slippageAdjustedAmountOut :=
      ((((Fraction.mk 1 1).add slippageTolerance).invert).multiply
        ⟨amountOut.quotient, 1⟩).quotient
    .ok (CurrencyAmount.fromRawAmount amountOut.currency slippageAdjustedAmountOut)

/-- `Trade.maximumAmountIn(slippageTolerance, amountIn)`: fails on a
negative tolerance; returns `amountIn` unchanged for exact-input trades;
otherwise the raw amount `(1 + tolerance) · amountIn.quotient`,
truncated to an integer. -/
def Trade.maximumAmountIn (t : Trade) (slippageTolerance : Percent)
    (amountIn : CurrencyAmount) : Except TradeError CurrencyAmount :=
  if slippageTolerance.lessThan ⟨0, 1⟩ then .error .slippageTolerance
  else if t.tradeType == .exactInput then .ok amountIn
  else
    let slippageAdjustedAmountIn :=
      (((Fraction.mk 1 1).add slippageTolerance).multiply ⟨amountIn.quotient, 1⟩).quotient
    .ok (CurrencyAmount.fromRawAmount amountIn.currency slippageAdjustedAmountIn)

/-! ### Concrete fixtures (from `encodeMixedRouteToPath.test.ts`) -/

def token0 : Token := ⟨570, 1, 18⟩
def token1 : Token := ⟨570, 2, 18⟩
def token2 : Token := ⟨570, 3, 18⟩

/-- `WETH9[570]`, address `0x4200000000000000000000000000000000000006`. -/
def weth : Token := ⟨570, 0x4200000000000000000000000000000000000006, 18⟩

/-- `Ether.onChain(570)`: the native currency, wrapped by `weth`. -/
def ETHER : Currency := .native 570 weth

/-- A placeholder mid-price for fixtures whose claims do not involve the
mid-price. -/
def onePrice : Price := ⟨.token token0, .token token1, ⟨1, 1⟩⟩

def pool_0_1_medium : PoolOrPair := .pool token0 token1 3000
def pool_1_2_low : PoolOrPair := .pool token1 token2 500
def pair_1_weth : PoolOrPair := .pair token1 weth

def route_0_V3_1_V3_2 : MixedRouteSDK :=
  ⟨[pool_0_1_medium, pool_1_2_low], .token token0, .token token2, onePrice⟩

def route_0_V3_1_V1_weth : MixedRouteSDK :=
  ⟨[pool_0_1_medium, pair_1_weth], .token token0, ETHER, onePrice⟩

/-- A malformed chain: the declared input is `token0` but the single
pair-style venue connects `token1` and `token2`, so neither venue token
matches the running input token. -/
def malformedRoute : MixedRouteSDK :=
  ⟨[.pair token1 token2], .token token0, .token token2, onePrice⟩

def pool_0_1_low : PoolOrPair := .pool token0 token1 500

/-- A mid-price of 2 quote units per base unit, token0 → token1. -/
def priceDouble : Price := ⟨.token token0, .token token1, ⟨2, 1⟩⟩

def routeA : V2RouteSDK := ⟨[pool_0_1_medium], .token token0, .token token1, priceDouble⟩
def routeB : V2RouteSDK := ⟨[pool_0_1_low], .token token0, .token token1, priceDouble⟩

def swapInfoA : V2RouteInfo :=
  ⟨routeA, CurrencyAmount.fromRawAmount (.token token0) 100,
    CurrencyAmount.fromRawAmount (.token token1) 150⟩

def swapInfoB : V2RouteInfo :=
  ⟨routeB, CurrencyAmount.fromRawAmount (.token token0) 200,
    CurrencyAmount.fromRawAmount (.token token1) 250⟩

/-- A second swap over the same pool-style venue as `swapInfoA` (same
two tokens, same fee tier). -/
def swapInfoA2 : V2RouteInfo :=
  ⟨routeA, CurrencyAmount.fromRawAmount (.token token0) 50,
    CurrencyAmount.fromRawAmount (.token token1) 60⟩

/-- The trade the constructor produces from `[swapInfoA, swapInfoB]`
(exact input, two distinct venues). -/
def tradeAB : Trade := ⟨Trade.buildSwaps [] [swapInfoA, swapInfoB] none, .exactInput⟩

/-- A single-swap trade used to evaluate the price-impact formula. -/
def tradeA : Trade := ⟨Trade.buildSwaps [] [swapInfoA] none, .exactInput⟩

/-- The same two swaps as `tradeAB`, but as an exact-output trade. -/
def tradeABout : Trade := ⟨Trade.buildSwaps [] [swapInfoA, swapInfoB] none, .exactOutput⟩

/-! ### Structural lemmas for the encoder -/

theorem length_toBytesBE (w n : Nat) : (toBytesBE w n).length = w := by
  induction w generalizing n with
  | zero => rfl
  | succ w ih => simp [toBytesBE, ih]

theorem pack_append (xs ys : List PathField) : pack (xs ++ ys) = pack xs ++ pack ys := by
  simp [pack]

theorem pack_cons (f : PathField) (xs : List PathField) :
    pack (f :: xs) = packField f ++ pack xs := by
  simp [pack]

theorem length_packField (f : PathField) : (packField f).length = 20 ∨ (packField f).length = 3 := by
  cases f with
  | address a => left; simp [packField, length_toBytesBE]
  | uint24 f => right; simp [packField, length_toBytesBE]

/-- For `index ≥ 1` the reduce only ever appends to the accumulated
path: the result is the accumulator followed by the venue field pairs. -/
theorem encodeFold_succ (pools : List PoolOrPair) :
    ∀ (t : Token) (path : List PathField) (k : Nat),
      encodeFold pools t path (k + 1) = path ++ tailFields pools t := by
  induction pools with
  | nil => intro t path k; simp [encodeFold, tailFields]
  | cons pool rest ih =>
    intro t path k
    simp only [encodeFold, tailFields]
    rw [if_neg (by simp)]
    rw [ih]
    simp

/-- Unfolding the whole reduce for a non-empty venue list: a leading
address field for the wrapped input, then one `(fee, address)` pair per
venue. -/
theorem encodeFold_eq (pools : List PoolOrPair) (t : Token) (h : pools ≠ []) :
    encodeFold pools t [] 0 = .address t.address :: tailFields pools t := by
  match pools with
  | [] => exact absurd rfl h
  | pool :: rest =>
    simp only [encodeFold, tailFields, beq_self_eq_true, if_true]
    rw [encodeFold_succ]
    rfl

theorem length_tailFields (pools : List PoolOrPair) :
    ∀ t : Token, (tailFields pools t).length = 2 * pools.length := by
  induction pools with
  | nil => intro t; rfl
  | cons pool rest ih =>
    intro t
    simp only [tailFields, List.length_cons, ih]
    ring

theorem length_pack_tailFields (pools : List PoolOrPair) :
    ∀ t : Token, (pack (tailFields pools t)).length = pools.length * 23 := by
  induction pools with
  | nil => intro t; rfl
  | cons pool rest ih =>
    intro t
    rw [tailFields, pack_cons, pack_cons, List.length_append, List.length_append, ih]
    simp [packField, length_toBytesBE]
    ring

/-- If the chain walk over a non-empty venue list from entry token `t`
reaches `tout`, the venue field pairs end with the address field of
`tout`: the branch taken by the encoder's output-token selection agrees
with the walk at every venue. -/
theorem tailFields_last (pools : List PoolOrPair) :
    ∀ t tout : Token, pools ≠ [] → chainWalk pools t = some tout →
      ∃ front, tailFields pools t = front ++ [.address tout.address] := by
  induction pools with
  | nil => intro t tout h _; exact absurd rfl h
  | cons pool rest ih =>
    intro t tout _ hwalk
    rw [chainWalk] at hwalk
    by_cases h0 : pool.token0.equals t
    · rw [if_pos h0] at hwalk
      cases rest with
      | nil =>
        rw [chainWalk] at hwalk
        obtain rfl : pool.token1 = tout := Option.some.inj hwalk
        exact ⟨[.uint24 pool.feeWord], by simp [tailFields, h0]⟩
      | cons q qs =>
        obtain ⟨front, hf⟩ := ih pool.token1 tout (by simp) hwalk
        exact ⟨.uint24 pool.feeWord :: .address pool.token1.address :: front,
          by rw [tailFields, if_pos h0, hf]; simp⟩
    · by_cases h1 : pool.token1.equals t
      · rw [if_neg h0, if_pos h1] at hwalk
        cases rest with
        | nil =>
          rw [chainWalk] at hwalk
          obtain rfl : pool.token0 = tout := Option.some.inj hwalk
          exact ⟨[.uint24 pool.feeWord], by simp [tailFields, h0]⟩
        | cons q qs =>
          obtain ⟨front, hf⟩ := ih pool.token0 tout (by simp) hwalk
          exact ⟨.uint24 pool.feeWord :: .address pool.token0.address :: front,
            by rw [tailFields, if_neg h0, hf]; simp⟩
      · rw [if_neg h0, if_neg h1] at hwalk
        cases hwalk

/-- C1: for every route with N venues (N ≥ 1), `encodeMixedRouteToPath`
emits exactly N+1 fixed-width address fields interleaved with N
fixed-width fee fields — a leading address field followed by one
`(fee, address)` pair per venue — so the encoded path length equals
(N+1)×20 + N×3 bytes. -/
theorem encodeMixedRouteToPath_field_layout (route : MixedRouteSDK) (h : route.pools ≠ []) :
    encodeFold route.pools route.input.wrapped [] 0
      = .address route.input.wrapped.address :: tailFields route.pools route.input.wrapped
    ∧ (tailFields route.pools route.input.wrapped).length = 2 * route.pools.length
    ∧ (encodeMixedRouteToPath route).length
      = (route.pools.length + 1) * 20 + route.pools.length * 3 := by
  refine ⟨encodeFold_eq _ _ h, length_tailFields _ _, ?_⟩
  show (pack (encodeFold route.pools route.input.wrapped [] 0)).length = _
  rw [encodeFold_eq _ _ h, pack_cons, List.length_append,
    length_pack_tailFields route.pools route.input.wrapped]
  simp [packField, length_toBytesBE]
  ring

/-- Witness for C1 on the two-venue fixture `route_0_V3_1_V3_2`:
the hypothesis (a non-empty venue list) holds and the encoded byte path
has length (2+1)×20 + 2×3 = 66. -/
theorem encodeMixedRouteToPath_field_layout_witness :
    (encodeMixedRouteToPath route_0_V3_1_V3_2).length
        = (route_0_V3_1_V3_2.pools.length + 1) * 20 + route_0_V3_1_V3_2.pools.length * 3
      ∧ (encodeMixedRouteToPath route_0_V3_1_V3_2).length = 66 :=
  ⟨(encodeMixedRouteToPath_field_layout route_0_V3_1_V3_2 (by decide)).2.2, by decide⟩

/-- C2: the two-venue route token0 → (pool, fee 3000) → token1 →
(pair, implicit fee) → wrapped ether encodes byte-for-byte as
`addr(token0) | 0x000bb8 | addr(token1) | 0x800000 | addr(weth)`,
each address at 20 bytes and each fee field at 3 bytes. -/
theorem encodeMixedRouteToPath_two_venue_bytes :
    encodeMixedRouteToPath route_0_V3_1_V1_weth
      = toBytesBE 20 token0.address ++ toBytesBE 3 3000 ++ toBytesBE 20 token1.address
        ++ toBytesBE 3 V1_FEE_PATH_PLACEHOLDER ++ toBytesBE 20 weth.address := by
  decide

/-- C7: for every route admitted by the route constructor (non-empty,
contiguous chain from wrapped input to wrapped output), the encoded path
starts with the 20-byte address of the wrapped input currency and ends
with the 20-byte address of the wrapped output currency — native
currencies are only ever encoded through their wrapped token. -/
theorem encodeMixedRouteToPath_wrapped_endpoints (route : MixedRouteSDK) (h : route.valid) :
    ∃ mid, encodeMixedRouteToPath route
      = toBytesBE 20 route.input.wrapped.address ++ mid
        ++ toBytesBE 20 route.output.wrapped.address := by
  obtain ⟨hne, hwalk⟩ := h
  obtain ⟨front, hf⟩ := tailFields_last route.pools route.input.wrapped route.output.wrapped hne hwalk
  refine ⟨pack front, ?_⟩
  show pack (encodeFold route.pools route.input.wrapped [] 0) = _
  rw [encodeFold_eq _ _ hne, pack_cons, hf, pack_append]
  simp [pack, packField]

/-- Witness for C7 on `route_0_V3_1_V1_weth`, whose declared output is
the native currency: the path ends with the wrapped-ether address. -/
theorem encodeMixedRouteToPath_wrapped_endpoints_witness :
    ∃ mid, encodeMixedRouteToPath route_0_V3_1_V1_weth
      = toBytesBE 20 route_0_V3_1_V1_weth.input.wrapped.address ++ mid
        ++ toBytesBE 20 route_0_V3_1_V1_weth.output.wrapped.address :=
  encodeMixedRouteToPath_wrapped_endpoints route_0_V3_1_V1_weth ⟨by decide, by decide⟩

/-- Counterexample to C8: on `malformedRoute` neither venue token equals
the running input token, yet the encoder does not fail — it emits a
complete path using the venue's `token0` as the output token (the
conditional `pool.token0.equals(inputToken) ? pool.token1 : pool.token0`
has no failing branch). -/
theorem encode_no_match_counterexample :
    (PoolOrPair.pair token1 token2).token0.equals (Currency.token token0).wrapped = false
    ∧ (PoolOrPair.pair token1 token2).token1.equals (Currency.token token0).wrapped = false
    ∧ encodeMixedRouteToPath malformedRoute
        = toBytesBE 20 token0.address ++ toBytesBE 3 V1_FEE_PATH_PLACEHOLDER
          ++ toBytesBE 20 token1.address := by
  decide

/-- C8 amended: for each venue in order the output token is `token1`
when the venue's `token0` equals the current input token and `token0`
otherwise; encoding is total and never fails — in particular a venue
matching neither token still emits its `token0` as the output token. -/
theorem encode_output_token_selection (route : MixedRouteSDK) (pool : PoolOrPair)
    (rest : List PoolOrPair) (hpools : route.pools = pool :: rest)
    (h0 : pool.token0.equals route.input.wrapped = false) :
    encodeFold route.pools route.input.wrapped [] 0
      = .address route.input.wrapped.address :: .uint24 pool.feeWord
        :: .address pool.token0.address :: tailFields rest pool.token0 := by
  rw [hpools, encodeFold_eq _ _ (by simp), tailFields, if_neg (by simp [h0])]

/-- Witness for the amended C8 on `malformedRoute`. -/
theorem encode_output_token_selection_witness :
    encodeFold malformedRoute.pools malformedRoute.input.wrapped [] 0
      = .address malformedRoute.input.wrapped.address
        :: .uint24 (PoolOrPair.pair token1 token2).feeWord
        :: .address (PoolOrPair.pair token1 token2).token0.address
        :: tailFields [] (PoolOrPair.pair token1 token2).token0 :=
  encode_output_token_selection malformedRoute (.pair token1 token2) [] (by decide) (by decide)

/-! ### Rational-value lemmas for the sdk-core arithmetic -/

theorem Fraction.value_add (a b : Fraction) (ha : a.denominator ≠ 0)
    (hb : b.denominator ≠ 0) : (a.add b).value = a.value + b.value := by
  have ha' : (a.denominator : ℚ) ≠ 0 := Int.cast_ne_zero.mpr ha
  have hb' : (b.denominator : ℚ) ≠ 0 := Int.cast_ne_zero.mpr hb
  rw [Fraction.add]
  split
  next h =>
    have hd : a.denominator = b.denominator := beq_iff_eq.mp h
    show ((a.numerator + b.numerator : ℤ) : ℚ) / (a.denominator : ℚ)
      = (a.numerator : ℚ) / a.denominator + (b.numerator : ℚ) / b.denominator
    rw [hd]
    push_cast
    field_simp
  next h =>
    show ((a.numerator * b.denominator + b.numerator * a.denominator : ℤ) : ℚ)
        / ((a.denominator * b.denominator : ℤ) : ℚ)
      = (a.numerator : ℚ) / a.denominator + (b.numerator : ℚ) / b.denominator
    push_cast
    field_simp

theorem Fraction.value_subtract (a b : Fraction) (ha : a.denominator ≠ 0)
    (hb : b.denominator ≠ 0) : (a.subtract b).value = a.value - b.value := by
  have ha' : (a.denominator : ℚ) ≠ 0 := Int.cast_ne_zero.mpr ha
  have hb' : (b.denominator : ℚ) ≠ 0 := Int.cast_ne_zero.mpr hb
  rw [Fraction.subtract]
  split
  next h =>
    have hd : a.denominator = b.denominator := beq_iff_eq.mp h
    show ((a.numerator - b.numerator : ℤ) : ℚ) / (a.denominator : ℚ)
      = (a.numerator : ℚ) / a.denominator - (b.numerator : ℚ) / b.denominator
    rw [hd]
    push_cast
    field_simp
  next h =>
    show ((a.numerator * b.denominator - b.numerator * a.denominator : ℤ) : ℚ)
        / ((a.denominator * b.denominator : ℤ) : ℚ)
      = (a.numerator : ℚ) / a.denominator - (b.numerator : ℚ) / b.denominator
    push_cast
    field_simp
    ring

theorem Fraction.value_multiply (a b : Fraction) :
    (a.multiply b).value = a.value * b.value := by
  show ((a.numerator * b.numerator : ℤ) : ℚ) / ((a.denominator * b.denominator : ℤ) : ℚ)
    = (a.numerator : ℚ) / a.denominator * ((b.numerator : ℚ) / b.denominator)
  push_cast
  rw [div_mul_div_comm]

theorem div_div_div_eq (a b c d : ℚ) : a / b / (c / d) = a * d / (b * c) := by
  rw [div_div_eq_mul_div, div_mul_eq_mul_div, div_div]

theorem Fraction.value_divide (a b : Fraction) :
    (a.divide b).value = a.value / b.value := by
  show ((a.numerator * b.denominator : ℤ) : ℚ) / ((a.denominator * b.numerator : ℤ) : ℚ)
    = (a.numerator : ℚ) / a.denominator / ((b.numerator : ℚ) / b.denominator)
  push_cast
  rw [div_div_div_eq]

theorem Fraction.add_denominator_ne (a b : Fraction) (ha : a.denominator ≠ 0)
    (hb : b.denominator ≠ 0) : (a.add b).denominator ≠ 0 := by
  rw [Fraction.add]
  split
  · exact ha
  · exact mul_ne_zero ha hb

theorem Fraction.subtract_denominator_ne (a b : Fraction) (ha : a.denominator ≠ 0)
    (hb : b.denominator ≠ 0) : (a.subtract b).denominator ≠ 0 := by
  rw [Fraction.subtract]
  split
  · exact ha
  · exact mul_ne_zero ha hb

theorem CurrencyAmount.value_fromRawAmount (c : Currency) (n : Int) :
    (CurrencyAmount.fromRawAmount c n).value = (n : ℚ) := by
  show (n : ℚ) / ((1 : ℤ) : ℚ) = (n : ℚ)
  simp

/-- Truncated division agrees with the rational floor on non-negative
numerator and positive denominator. -/
theorem tdiv_cast_eq_floor (a b : ℤ) (ha : 0 ≤ a) (hb : 0 < b) :
    ((a.tdiv b : ℤ) : ℚ) = ⌊(a : ℚ) / (b : ℚ)⌋ := by
  rw [Int.tdiv_eq_ediv ha hb.le]
  congr 1
  obtain ⟨n, rfl⟩ : ∃ n : ℕ, b = (n : ℤ) := ⟨b.toNat, (Int.toNat_of_nonneg hb.le).symm⟩
  exact (Rat.floor_intCast_div_natCast a n).symm

/-- Folding `CurrencyAmount.add` over a list of amounts with non-zero
denominators sums their exact rational values, keeps the initial
currency, and keeps the denominator non-zero. -/
theorem foldl_add_spec (f : Swap → CurrencyAmount) (xs : List Swap) :
    ∀ init : CurrencyAmount, init.denominator ≠ 0 → (∀ x ∈ xs, (f x).denominator ≠ 0) →
      (xs.foldl (fun total cur => total.add (f cur)) init).value
          = init.value + (xs.map (fun x => (f x).value)).sum
        ∧ (xs.foldl (fun total cur => total.add (f cur)) init).currency = init.currency
        ∧ (xs.foldl (fun total cur => total.add (f cur)) init).denominator ≠ 0 := by
  induction xs with
  | nil => intro init h _; exact ⟨by simp, rfl, h⟩
  | cons x xs ih =>
    intro init hinit hxs
    have hx : (f x).denominator ≠ 0 := hxs x (by simp)
    have hadd : (init.add (f x)).denominator ≠ 0 :=
      Fraction.add_denominator_ne init.toFraction (f x).toFraction hinit hx
    obtain ⟨hv, hc, hd⟩ := ih (init.add (f x))
      hadd (fun y hy => hxs y (by simp [hy]))
    refine ⟨?_, ?_, hd⟩
    · rw [List.foldl_cons, hv]
      have : (init.add (f x)).value = init.value + (f x).value :=
        Fraction.value_add init.toFraction (f x).toFraction hinit hx
      rw [this]
      simp [add_assoc]
    · rw [List.foldl_cons, hc]
      rfl

/-- C3: for every trade with a non-empty swap list (as every constructed
trade has) whose amounts are well-formed rationals, the `inputAmount`
accessor returns exactly the sum of all swaps' input amounts and the
`outputAmount` accessor exactly the sum of all swaps' output amounts, as
exact rational equality, denominated in the trade's overall input/output
currency (the first swap's amount currencies). -/
theorem trade_amounts_are_sums (t : Trade) (s0 : Swap) (rest : List Swap)
    (hswaps : t.swaps = s0 :: rest)
    (hd : ∀ s ∈ t.swaps, s.inputAmount.denominator ≠ 0 ∧ s.outputAmount.denominator ≠ 0) :
    ∃ ain aout : CurrencyAmount,
      t.inputAmount = some ain ∧ t.outputAmount = some aout
      ∧ ain.currency = s0.inputAmount.currency
      ∧ aout.currency = s0.outputAmount.currency
      ∧ ain.value = (t.swaps.map (fun s => s.inputAmount.value)).sum
      ∧ aout.value = (t.swaps.map (fun s => s.outputAmount.value)).sum := by
  obtain ⟨swaps, tt⟩ := t
  replace hswaps : swaps = s0 :: rest := hswaps
  subst hswaps
  simp only [Trade.inputAmount, Trade.outputAmount, List.foldl_map]
  obtain ⟨hvi, hci, _⟩ := foldl_add_spec (fun s => s.inputAmount) (s0 :: rest)
    (CurrencyAmount.fromRawAmount s0.inputAmount.currency 0)
    (by simp [CurrencyAmount.fromRawAmount])
    (fun s hs => (hd s hs).1)
  obtain ⟨hvo, hco, _⟩ := foldl_add_spec (fun s => s.outputAmount) (s0 :: rest)
    (CurrencyAmount.fromRawAmount s0.outputAmount.currency 0)
    (by simp [CurrencyAmount.fromRawAmount])
    (fun s hs => (hd s hs).2)
  refine ⟨_, _, rfl, rfl, hci.trans rfl, hco.trans rfl, ?_, ?_⟩
  · rw [hvi, CurrencyAmount.value_fromRawAmount]
    simp
  · rw [hvo, CurrencyAmount.value_fromRawAmount]
    simp

/-- Witness for C3 on the constructed two-swap trade `tradeAB`:
inputs 100 + 200 raw units, outputs 150 + 250 raw units. -/
theorem trade_amounts_are_sums_witness :
    ∃ ain aout : CurrencyAmount,
      tradeAB.inputAmount = some ain ∧ tradeAB.outputAmount = some aout
      ∧ ain.currency = (Swap.mk (RouteV2.wrap routeA)
          (CurrencyAmount.fromRawAmount (.token token0) 100)
          (CurrencyAmount.fromRawAmount (.token token1) 150)).inputAmount.currency
      ∧ aout.currency = (Swap.mk (RouteV2.wrap routeA)
          (CurrencyAmount.fromRawAmount (.token token0) 100)
          (CurrencyAmount.fromRawAmount (.token token1) 150)).outputAmount.currency
      ∧ ain.value = (tradeAB.swaps.map (fun s => s.inputAmount.value)).sum
      ∧ aout.value = (tradeAB.swaps.map (fun s => s.outputAmount.value)).sum :=
  trade_amounts_are_sums tradeAB
    ⟨RouteV2.wrap routeA, CurrencyAmount.fromRawAmount (.token token0) 100,
      CurrencyAmount.fromRawAmount (.token token1) 150⟩
    [⟨RouteV2.wrap routeB, CurrencyAmount.fromRawAmount (.token token0) 200,
      CurrencyAmount.fromRawAmount (.token token1) 250⟩]
    (by decide) (by decide)

/-- C9: supplying no routes in any protocol group (empty `v1Routes` and
`v2Routes`, with `mixedRoutes` absent or empty) makes construction fail
with the empty-swap-list condition — distinct from every invariant
condition — and the amount accessors on an empty swap list never
produce an amount. -/
theorem trade_construct_empty (tt : TradeType) :
    Trade.construct [] [] tt none = .error .emptySwaps
    ∧ Trade.construct [] [] tt (some []) = .error .emptySwaps
    ∧ (Trade.mk [] tt).inputAmount = none
    ∧ (Trade.mk [] tt).outputAmount = none :=
  ⟨rfl, rfl, rfl, rfl⟩

/-- Witness for C9 at the exact-input trade type. -/
theorem trade_construct_empty_witness :
    Trade.construct [] [] TradeType.exactInput none = .error .emptySwaps
    ∧ Trade.construct [] [] TradeType.exactInput (some []) = .error .emptySwaps
    ∧ (Trade.mk [] TradeType.exactInput).inputAmount = none
    ∧ (Trade.mk [] TradeType.exactInput).outputAmount = none :=
  trade_construct_empty TradeType.exactInput

theorem length_eq_dedup_length_iff {α : Type} [DecidableEq α] (l : List α) :
    l.length = l.dedup.length ↔ l.Nodup := by
  constructor
  · intro h
    have hsub : List.Sublist l.dedup l := List.dedup_sublist l
    have heq : l.dedup = l := hsub.eq_of_length h.symm
    rw [← heq]
    exact List.nodup_dedup l
  · intro h
    rw [List.dedup_eq_self.mpr h]

/-- C4: when the swap list is non-empty and both currency invariants
hold, construction fails with the duplicate-venue condition exactly when
the venues across all swaps (compared by `getAddress` identity: token
addresses for pairs, token addresses plus fee tier for pools) contain a
duplicate; with no duplicate, construction succeeds. -/
theorem trade_construct_poolsDuplicated_iff (v1 : List V1RouteInfo) (v2 : List V2RouteInfo)
    (mx : Option (List MixedRouteInfo)) (tt : TradeType) (s0 : Swap) (rest : List Swap)
    (hswaps : Trade.buildSwaps v1 v2 mx = s0 :: rest)
    (hin : (s0 :: rest).all
      (fun s => s0.inputAmount.currency.wrapped.equals s.route.input.wrapped) = true)
    (hout : (s0 :: rest).all
      (fun s => s0.outputAmount.currency.wrapped.equals s.route.output.wrapped) = true) :
    (Trade.construct v1 v2 tt mx = .error .poolsDuplicated
      ↔ ¬ (((s0 :: rest).flatMap (fun s => s.route.pools)).map PoolOrPair.getAddress).Nodup)
    ∧ (Trade.construct v1 v2 tt mx = .ok ⟨s0 :: rest, tt⟩
      ↔ (((s0 :: rest).flatMap (fun s => s.route.pools)).map PoolOrPair.getAddress).Nodup) := by
  have hnum : ((s0 :: rest).map (fun s => s.route.pools.length)).sum
      = (((s0 :: rest).flatMap (fun s => s.route.pools)).map PoolOrPair.getAddress).length := by
    simp [List.length_flatMap, Function.comp_def]
  have key : ((((s0 :: rest).map (fun s => s.route.pools.length)).sum
        == ((((s0 :: rest).flatMap (fun s => s.route.pools)).map
            PoolOrPair.getAddress).dedup).length) = true)
      ↔ (((s0 :: rest).flatMap (fun s => s.route.pools)).map PoolOrPair.getAddress).Nodup := by
    rw [beq_iff_eq, hnum]
    exact length_eq_dedup_length_iff _
  simp only [Trade.construct, hswaps, hin, hout, if_true]
  by_cases hbc : ((((s0 :: rest).map (fun s => s.route.pools.length)).sum
      == ((((s0 :: rest).flatMap (fun s => s.route.pools)).map
          PoolOrPair.getAddress).dedup).length) = true)
  · rw [if_pos hbc]
    exact ⟨iff_of_false (by simp) (not_not_intro (key.mp hbc)), iff_of_true rfl (key.mp hbc)⟩
  · rw [if_neg hbc]
    exact ⟨iff_of_true rfl (fun h => hbc (key.mpr h)),
      iff_of_false (by simp) (fun h => hbc (key.mpr h))⟩

/-- Witness for C4: two swaps routing through the same pool-style venue
(`pool_0_1_medium` twice, once in each of two v2 route infos) make
construction fail with `POOLS_DUPLICATED`. -/
theorem trade_construct_poolsDuplicated_iff_witness :
    Trade.construct [] [swapInfoA, swapInfoA2] TradeType.exactInput none
      = .error .poolsDuplicated :=
  (trade_construct_poolsDuplicated_iff [] [swapInfoA, swapInfoA2] none TradeType.exactInput
    ⟨RouteV2.wrap routeA, CurrencyAmount.fromRawAmount (.token token0) 100,
      CurrencyAmount.fromRawAmount (.token token1) 150⟩
    [⟨RouteV2.wrap routeA, CurrencyAmount.fromRawAmount (.token token0) 50,
      CurrencyAmount.fromRawAmount (.token token1) 60⟩]
    (by decide) (by decide) (by decide)).1.mpr (by decide)

/-- C5: for every trade with a non-empty swap list and well-formed
rationals, `priceImpact` returns the percent whose exact rational value
is `(spotOutput − outputAmount) / spotOutput`, where `spotOutput` is the
sum over all swaps of the route's own mid-price applied to the swap's
input amount — all in exact rational arithmetic. -/
theorem trade_priceImpact_spec (t : Trade) (s0 : Swap) (rest : List Swap)
    (hswaps : t.swaps = s0 :: rest)
    (hd : ∀ s ∈ t.swaps, s.inputAmount.denominator ≠ 0 ∧ s.outputAmount.denominator ≠ 0
      ∧ s.route.midPrice.frac.denominator ≠ 0) :
    ∃ p : Percent, t.priceImpact = some p
      ∧ p.value
        = ((t.swaps.map (fun s => s.route.midPrice.frac.value * s.inputAmount.value)).sum
            - (t.swaps.map (fun s => s.outputAmount.value)).sum)
          / (t.swaps.map (fun s => s.route.midPrice.frac.value * s.inputAmount.value)).sum := by
  obtain ⟨swaps, tt⟩ := t
  replace hswaps : swaps = s0 :: rest := hswaps
  subst hswaps
  obtain ⟨hvo, hco, hdo⟩ := foldl_add_spec (fun s => s.outputAmount) (s0 :: rest)
    (CurrencyAmount.fromRawAmount s0.outputAmount.currency 0)
    (by simp [CurrencyAmount.fromRawAmount]) (fun s hs => (hd s hs).2.1)
  have houtEq : (Trade.mk (s0 :: rest) tt).outputAmount
      = some ((s0 :: rest).foldl (fun total s => total.add s.outputAmount)
          (CurrencyAmount.fromRawAmount s0.outputAmount.currency 0)) := by
    simp only [Trade.outputAmount, List.foldl_map]
  set outA := (s0 :: rest).foldl (fun total s => total.add s.outputAmount)
    (CurrencyAmount.fromRawAmount s0.outputAmount.currency 0) with houtA
  obtain ⟨hvs, hcs, hds⟩ := foldl_add_spec (fun s => s.route.midPrice.quote s.inputAmount)
    (s0 :: rest) (CurrencyAmount.fromRawAmount outA.currency 0)
    (by simp [CurrencyAmount.fromRawAmount])
    (fun s hs => mul_ne_zero (hd s hs).2.2 (hd s hs).1)
  simp only [Trade.priceImpact, houtEq]
  set spotA := (s0 :: rest).foldl
    (fun spot s => spot.add (s.route.midPrice.quote s.inputAmount))
    (CurrencyAmount.fromRawAmount outA.currency 0) with hspotA
  refine ⟨_, rfl, ?_⟩
  show ((spotA.subtract outA).toFraction.divide spotA.toFraction).value = _
  have h1 : ((spotA.subtract outA).toFraction.divide spotA.toFraction).value
      = (spotA.subtract outA).value / spotA.value :=
    Fraction.value_divide _ _
  have h2 : (spotA.subtract outA).value = spotA.value - outA.value :=
    Fraction.value_subtract spotA.toFraction outA.toFraction hds hdo
  have hfun : (fun (s : Swap) => (s.route.midPrice.quote s.inputAmount).value)
      = fun s => s.route.midPrice.frac.value * s.inputAmount.value := by
    funext s
    exact Fraction.value_multiply s.route.midPrice.frac s.inputAmount.toFraction
  have h3 : spotA.value
      = ((s0 :: rest).map (fun s => s.route.midPrice.frac.value * s.inputAmount.value)).sum := by
    rw [hvs, CurrencyAmount.value_fromRawAmount, hfun]
    simp
  have h4 : outA.value = ((s0 :: rest).map (fun s => s.outputAmount.value)).sum := by
    rw [hvo, CurrencyAmount.value_fromRawAmount]
    simp
  rw [h1, h2, h3, h4]

/-- Witness for C5 on the single-swap trade `tradeA` (mid-price 2,
input 100, output 150): spot output 200, impact value (200−150)/200. -/
theorem trade_priceImpact_spec_witness :
    (∃ p : Percent, tradeA.priceImpact = some p
      ∧ p.value
        = ((tradeA.swaps.map (fun s => s.route.midPrice.frac.value * s.inputAmount.value)).sum
            - (tradeA.swaps.map (fun s => s.outputAmount.value)).sum)
          / (tradeA.swaps.map (fun s => s.route.midPrice.frac.value * s.inputAmount.value)).sum) :=
  trade_priceImpact_spec tradeA
    ⟨RouteV2.wrap routeA, CurrencyAmount.fromRawAmount (.token token0) 100,
      CurrencyAmount.fromRawAmount (.token token1) 150⟩
    [] (by decide) (by decide)

/-! ### Slippage-bound lemmas -/

theorem lessThan_zero_iff (tol : Fraction) :
    (tol.lessThan ⟨0, 1⟩ = true) ↔ tol.numerator < 0 := by
  simp [Fraction.lessThan]

theorem value_neg_iff (tol : Fraction) (hd : 0 < tol.denominator) :
    tol.value < 0 ↔ tol.numerator < 0 := by
  have hd' : (0 : ℚ) < (tol.denominator : ℚ) := by exact_mod_cast hd
  unfold Fraction.value
  rw [div_lt_iff₀ hd', zero_mul]
  exact Int.cast_lt_zero

theorem value_nonneg_iff (tol : Fraction) (hd : 0 < tol.denominator) :
    0 ≤ tol.value ↔ 0 ≤ tol.numerator := by
  rw [← not_lt, ← not_lt, not_iff_not]
  exact value_neg_iff tol hd

theorem value_eq_zero_imp (tol : Fraction) (hd : 0 < tol.denominator)
    (h : tol.value = 0) : tol.numerator = 0 := by
  have hd' : (tol.denominator : ℚ) ≠ 0 := by
    exact_mod_cast hd.ne.symm
  rcases div_eq_zero_iff.mp h with h1 | h2
  · exact_mod_cast h1
  · exact absurd h2 hd'

/-- The slippage-adjusted raw amount of `minimumAmountOut` on the
exact-input branch: `(1 + tol)⁻¹ · q` truncated, which works out to
`(tol.denominator * q).tdiv (tol.denominator + tol.numerator)`. -/
theorem minOut_quotient (tol : Fraction) (q : Int) :
    ((((Fraction.mk 1 1).add tol).invert).multiply ⟨q, 1⟩).quotient
      = (tol.denominator * q).tdiv (tol.denominator + tol.numerator) := by
  rw [Fraction.add]
  split
  next h =>
    have hd : tol.denominator = 1 := (beq_iff_eq.mp h).symm
    show ((1 : ℤ) * q).tdiv ((1 + tol.numerator) * 1) = _
    rw [hd]
    simp
  next h =>
    show ((1 * tol.denominator) * q).tdiv ((1 * tol.denominator + tol.numerator * 1) * 1) = _
    simp

/-- The slippage-adjusted raw amount of `maximumAmountIn` on the
exact-output branch: `(1 + tol) · q` truncated, which works out to
`((tol.denominator + tol.numerator) * q).tdiv tol.denominator`. -/
theorem maxIn_quotient (tol : Fraction) (q : Int) :
    (((Fraction.mk 1 1).add tol).multiply ⟨q, 1⟩).quotient
      = ((tol.denominator + tol.numerator) * q).tdiv tol.denominator := by
  rw [Fraction.add]
  split
  next h =>
    have hd : tol.denominator = 1 := (beq_iff_eq.mp h).symm
    show ((1 + tol.numerator) * q).tdiv (1 * 1) = _
    rw [hd]
    simp
  next h =>
    show ((1 * tol.denominator + tol.numerator * 1) * q).tdiv ((1 * tol.denominator) * 1) = _
    simp

/-- Rational identity behind the exact-input bound:
`q / (1 + tol) = (d·q) / (d + n)` for a tolerance `n/d` with `d > 0`,
`n ≥ 0`. -/
theorem div_one_add_value (tol : Fraction) (q : Int) (hd : 0 < tol.denominator) :
    (q : ℚ) / (1 + tol.value)
      = ((tol.denominator * q : ℤ) : ℚ) / ((tol.denominator + tol.numerator : ℤ) : ℚ) := by
  have hd' : (tol.denominator : ℚ) ≠ 0 := by exact_mod_cast hd.ne.symm
  have hsum : (1 : ℚ) + tol.value
      = ((tol.denominator + tol.numerator : ℤ) : ℚ) / (tol.denominator : ℚ) := by
    unfold Fraction.value
    push_cast
    field_simp
  rw [hsum, div_div_eq_mul_div]
  push_cast
  ring

/-- Symmetric rational identity behind the exact-output bound:
`(1 + tol) · q = ((d + n)·q) / d`. -/
theorem mul_one_add_value (tol : Fraction) (q : Int) (hd : 0 < tol.denominator) :
    (1 + tol.value) * (q : ℚ)
      = (((tol.denominator + tol.numerator) * q : ℤ) : ℚ) / ((tol.denominator : ℤ) : ℚ) := by
  have hd' : (tol.denominator : ℚ) ≠ 0 := by exact_mod_cast hd.ne.symm
  unfold Fraction.value
  push_cast
  field_simp

/-- C6 amended: `minimumAmountOut` fails (before producing any amount)
exactly on negative tolerances; for exact-output trades it returns
`amountOut` unchanged; for exact-input trades it returns the raw amount
`⌊⌊amountOut⌋ / (1 + tolerance)⌋` (the quotient of the already-truncated
raw amount, not the exact rational quotient); with tolerance 0 it
returns the whole-raw-unit amount `amountOut.quotient`, which equals
`amountOut` exactly whenever the output amount is a whole raw amount. -/
theorem trade_minimumAmountOut_spec (t : Trade) (tol : Percent) (amountOut : CurrencyAmount)
    (hd : 0 < tol.denominator) (hn : 0 ≤ amountOut.numerator)
    (hdo : 0 < amountOut.denominator) :
    (tol.value < 0 → t.minimumAmountOut tol amountOut = .error .slippageTolerance)
    ∧ (0 ≤ tol.value → t.tradeType = .exactOutput →
        t.minimumAmountOut tol amountOut = .ok amountOut)
    ∧ (0 ≤ tol.value → t.tradeType = .exactInput →
        t.minimumAmountOut tol amountOut
          = .ok (CurrencyAmount.fromRawAmount amountOut.currency
              ((tol.denominator * amountOut.quotient).tdiv (tol.denominator + tol.numerator)))
        ∧ (((tol.denominator * amountOut.quotient).tdiv
              (tol.denominator + tol.numerator) : ℤ) : ℚ)
            = ⌊(amountOut.quotient : ℚ) / (1 + tol.value)⌋)
    ∧ (tol.value = 0 → t.tradeType = .exactInput →
        t.minimumAmountOut tol amountOut
          = .ok (CurrencyAmount.fromRawAmount amountOut.currency amountOut.quotient)) := by
  have hq : 0 ≤ amountOut.quotient := Int.tdiv_nonneg hn hdo.le
  refine ⟨?_, ?_, ?_, ?_⟩
  · intro hneg
    have hlt : tol.lessThan ⟨0, 1⟩ = true :=
      (lessThan_zero_iff tol).mpr ((value_neg_iff tol hd).mp hneg)
    rw [Trade.minimumAmountOut, if_pos hlt]
  · intro hnonneg hout
    have hlt : ¬ tol.lessThan ⟨0, 1⟩ = true := by
      rw [lessThan_zero_iff, ← value_neg_iff tol hd]
      exact not_lt.mpr hnonneg
    rw [Trade.minimumAmountOut, if_neg hlt, if_pos (by rw [hout]; rfl)]
  · intro hnonneg hinp
    have hlt : ¬ tol.lessThan ⟨0, 1⟩ = true := by
      rw [lessThan_zero_iff, ← value_neg_iff tol hd]
      exact not_lt.mpr hnonneg
    have hto : ¬ (t.tradeType == TradeType.exactOutput) = true := by
      rw [hinp]
      exact of_decide_eq_false rfl
    have htoln : 0 ≤ tol.numerator := (value_nonneg_iff tol hd).mp hnonneg
    have hdenpos : (0 : ℤ) < tol.denominator + tol.numerator := by
      exact add_pos_of_pos_of_nonneg hd htoln
    constructor
    · rw [Trade.minimumAmountOut, if_neg hlt, if_neg hto, minOut_quotient]
    · rw [tdiv_cast_eq_floor _ _ (mul_nonneg hd.le hq) hdenpos,
        div_one_add_value tol amountOut.quotient hd]
  · intro hzero hinp
    have hnum0 : tol.numerator = 0 := value_eq_zero_imp tol hd hzero
    have hlt : ¬ tol.lessThan ⟨0, 1⟩ = true := by
      rw [lessThan_zero_iff, hnum0]
      exact lt_irrefl 0
    have hto : ¬ (t.tradeType == TradeType.exactOutput) = true := by
      rw [hinp]
      exact of_decide_eq_false rfl
    rw [Trade.minimumAmountOut, if_neg hlt, if_neg hto, minOut_quotient, hnum0, add_zero,
      Int.mul_tdiv_cancel_left _ hd.ne.symm]

/-- Witness for C6 on the exact-input trade `tradeAB` with tolerance
1/2 and output amount 10: the negative-tolerance clause is vacuous, and
the exact-input clause yields raw amount 6 = ⌊10 / (3/2)⌋. -/
theorem trade_minimumAmountOut_spec_witness :
    tradeAB.minimumAmountOut ⟨1, 2⟩ (CurrencyAmount.fromRawAmount (.token token1) 10)
        = .ok (CurrencyAmount.fromRawAmount (.token token1)
            (((2 : ℤ) * 10).tdiv ((2 : ℤ) + 1)))
      ∧ tradeAB.minimumAmountOut ⟨0, 1⟩ (CurrencyAmount.fromRawAmount (.token token1) 10)
        = .ok (CurrencyAmount.fromRawAmount (.token token1) 10) := by
  constructor
  · exact ((trade_minimumAmountOut_spec tradeAB ⟨1, 2⟩
      (CurrencyAmount.fromRawAmount (.token token1) 10)
      (by decide) (by decide) (by decide)).2.2.1 (by norm_num [Fraction.value]) rfl).1
  · exact (trade_minimumAmountOut_spec tradeAB ⟨0, 1⟩
      (CurrencyAmount.fromRawAmount (.token token1) 10)
      (by decide) (by decide) (by decide)).2.2.2 (by norm_num [Fraction.value]) rfl

/-- Counterexample to C6 as stated: on the constructible exact-input
trade `tradeAB`, tolerance 1/2 and output amount 10 raw units, the
returned amount is 6 raw units, while the exact rational quotient
`amountOut / (1 + tolerance)` is 20/3 — the accessor truncates, it does
not return the exact division. -/
theorem trade_minimumAmountOut_counterexample :
    Trade.construct [] [swapInfoA, swapInfoB] TradeType.exactInput none = .ok tradeAB
    ∧ tradeAB.minimumAmountOut ⟨1, 2⟩ (CurrencyAmount.fromRawAmount (.token token1) 10)
        = .ok (CurrencyAmount.fromRawAmount (.token token1) 6)
    ∧ (CurrencyAmount.fromRawAmount (.token token1) 6).value
        ≠ (CurrencyAmount.fromRawAmount (.token token1) 10).value
          / (1 + (Fraction.mk 1 2).value) := by
  refine ⟨rfl, rfl, ?_⟩
  rw [CurrencyAmount.value_fromRawAmount, CurrencyAmount.value_fromRawAmount]
  norm_num [Fraction.value]

/-- C10 amended: for every trade and nonnegative tolerance, the
slippage-adjusted branches return whole-raw-unit amounts (denominator
1): `minimumAmountOut` on an exact-input trade returns the integer floor
of `⌊amountOut⌋ / (1 + t)` — the quotient is taken of the
already-truncated raw amount, which coincides with
`⌊amountOut / (1 + t)⌋` whenever `amountOut` is a whole raw amount —
and `maximumAmountIn` on an exact-output trade returns the integer floor
of `(1 + t) · ⌊amountIn⌋`. -/
theorem trade_slippage_bounds_floor (t : Trade) (tol : Percent)
    (hd : 0 < tol.denominator) (htol : 0 ≤ tol.value)
    (amountOut amountIn : CurrencyAmount)
    (hno : 0 ≤ amountOut.numerator) (hdo : 0 < amountOut.denominator)
    (hni : 0 ≤ amountIn.numerator) (hdi : 0 < amountIn.denominator) :
    (t.tradeType = .exactInput →
      ∃ r : CurrencyAmount, t.minimumAmountOut tol amountOut = .ok r
        ∧ r.currency = amountOut.currency ∧ r.denominator = 1
        ∧ (r.numerator : ℚ) = ⌊(amountOut.quotient : ℚ) / (1 + tol.value)⌋)
    ∧ (t.tradeType = .exactOutput →
      ∃ r : CurrencyAmount, t.maximumAmountIn tol amountIn = .ok r
        ∧ r.currency = amountIn.currency ∧ r.denominator = 1
        ∧ (r.numerator : ℚ) = ⌊(1 + tol.value) * (amountIn.quotient : ℚ)⌋) := by
  have htoln : 0 ≤ tol.numerator := (value_nonneg_iff tol hd).mp htol
  have hdenpos : (0 : ℤ) < tol.denominator + tol.numerator :=
    add_pos_of_pos_of_nonneg hd htoln
  have hlt : ¬ tol.lessThan ⟨0, 1⟩ = true := by
    rw [lessThan_zero_iff, ← value_neg_iff tol hd]
    exact not_lt.mpr htol
  constructor
  · intro hinp
    have hto : ¬ (t.tradeType == TradeType.exactOutput) = true := by
      rw [hinp]
      exact of_decide_eq_false rfl
    have hq : 0 ≤ amountOut.quotient := Int.tdiv_nonneg hno hdo.le
    refine ⟨CurrencyAmount.fromRawAmount amountOut.currency
        ((tol.denominator * amountOut.quotient).tdiv (tol.denominator + tol.numerator)),
      ?_, rfl, rfl, ?_⟩
    · rw [Trade.minimumAmountOut, if_neg hlt, if_neg hto, minOut_quotient]
    · show (((tol.denominator * amountOut.quotient).tdiv
          (tol.denominator + tol.numerator) : ℤ) : ℚ) = _
      rw [tdiv_cast_eq_floor _ _ (mul_nonneg hd.le hq) hdenpos,
        div_one_add_value tol amountOut.quotient hd]
  · intro hout
    have hti : ¬ (t.tradeType == TradeType.exactInput) = true := by
      rw [hout]
      exact of_decide_eq_false rfl
    have hq : 0 ≤ amountIn.quotient := Int.tdiv_nonneg hni hdi.le
    refine ⟨CurrencyAmount.fromRawAmount amountIn.currency
        (((tol.denominator + tol.numerator) * amountIn.quotient).tdiv tol.denominator),
      ?_, rfl, rfl, ?_⟩
    · rw [Trade.maximumAmountIn, if_neg hlt, if_neg hti, maxIn_quotient]
    · show ((((tol.denominator + tol.numerator) * amountIn.quotient).tdiv
          tol.denominator : ℤ) : ℚ) = _
      rw [tdiv_cast_eq_floor _ _ (mul_nonneg hdenpos.le hq) hd,
        mul_one_add_value tol amountIn.quotient hd]

/-- Witness for the amended C10: tolerance 1/2 on `tradeAB`
(exact input, amount out 10) and on `tradeABout` (exact output,
amount in 10). -/
theorem trade_slippage_bounds_floor_witness :
    (∃ r : CurrencyAmount,
      tradeAB.minimumAmountOut ⟨1, 2⟩ (CurrencyAmount.fromRawAmount (.token token1) 10)
          = .ok r
        ∧ r.currency = (CurrencyAmount.fromRawAmount (.token token1) 10).currency
        ∧ r.denominator = 1
        ∧ (r.numerator : ℚ)
          = ⌊((CurrencyAmount.fromRawAmount (.token token1) 10).quotient : ℚ)
              / (1 + (Fraction.mk 1 2).value)⌋)
    ∧ (∃ r : CurrencyAmount,
      tradeABout.maximumAmountIn ⟨1, 2⟩ (CurrencyAmount.fromRawAmount (.token token0) 10)
          = .ok r
        ∧ r.currency = (CurrencyAmount.fromRawAmount (.token token0) 10).currency
        ∧ r.denominator = 1
        ∧ (r.numerator : ℚ)
          = ⌊(1 + (Fraction.mk 1 2).value)
              * ((CurrencyAmount.fromRawAmount (.token token0) 10).quotient : ℚ)⌋) :=
  ⟨(trade_slippage_bounds_floor tradeAB ⟨1, 2⟩ (by decide) (by norm_num [Fraction.value])
      (CurrencyAmount.fromRawAmount (.token token1) 10)
      (CurrencyAmount.fromRawAmount (.token token0) 10)
      (by decide) (by decide) (by decide) (by decide)).1 rfl,
   (trade_slippage_bounds_floor tradeABout ⟨1, 2⟩ (by decide) (by norm_num [Fraction.value])
      (CurrencyAmount.fromRawAmount (.token token1) 10)
      (CurrencyAmount.fromRawAmount (.token token0) 10)
      (by decide) (by decide) (by decide) (by decide)).2 rfl⟩

/-- Counterexample to C10 as stated: on the constructible exact-input
trade `tradeAB`, with the fractional amount 7/2 passed as `amountOut`
and tolerance 1/6, the accessor returns 2 raw units, while the claimed
`⌊amountOut / (1 + t)⌋ = ⌊(7/2) / (7/6)⌋ = 3` — the quotient is taken
of the already-truncated `⌊7/2⌋ = 3` first, so the two floors differ. -/
theorem trade_slippage_floor_counterexample :
    Trade.construct [] [swapInfoA, swapInfoB] TradeType.exactInput none = .ok tradeAB
    ∧ tradeAB.minimumAmountOut ⟨1, 6⟩ ⟨⟨7, 2⟩, .token token1⟩
        = .ok (CurrencyAmount.fromRawAmount (.token token1) 2)
    ∧ ⌊(Fraction.mk 7 2).value / (1 + (Fraction.mk 1 6).value)⌋ = 3
    ∧ (2 : ℤ) ≠ 3 := by
  refine ⟨rfl, rfl, ?_, by decide⟩
  norm_num [Fraction.value]

end RouterSdk
